import Mathlib

/-!
Verification of the request-issuance controller of
`src/downloader/headers/fetch_request_stage.rs` (struct `FetchRequestStage`).

The stage scans a shared collection of header slices, issues one
`GetBlockHeadersMessage` per `Empty` slice through the sentry gateway,
transitions each successfully requested slice to `Waiting`, stops the scan on a
full send queue (awaiting renewed capacity before returning), and propagates
any other send failure as a fatal error.

The embedding below is sequential: the gateway's reply to the n-th `try_send`
attempt of a call is written as a function `gw : Nat → SendResult`, wall-clock
instants are ticks of a monotone `Nat` clock, and the two suspension points
(the pending-count watch and the capacity future) are written as explicit
input data.  `execute` returns `none` when the call is still suspended in the
pending-wait loop, mirroring a call that has not yet returned.
-/

namespace FetchRequest

/-- Modelled from the spec: the slice status enum of `header_slices.rs` (a file
not under `src/`): `enum{Empty, Waiting, …other-stages'-states}`.  This stage
only distinguishes `Empty`, so the other stages' states are collapsed into one
constructor. -/
inductive HeaderSliceStatus
  | Empty
  | Waiting
  | Other
  deriving DecidableEq

/-- A header slice, with the fields `fetch_request_stage.rs` touches:
`start_block_num`, `status` and `request_time` (an instant, modelled as a
`Nat` tick of a monotone clock). -/
structure HeaderSlice where
  start_block_num : Nat
  status : HeaderSliceStatus
  request_time : Option Nat
  deriving DecidableEq

/-- Modelled from the spec: `HEADER_SLICE_SIZE` of `header_slices.rs` (not
under `src/`); the spec's concrete scenario fixes the slice capacity at 192. -/
def HEADER_SLICE_SIZE : Nat := 192

/-- The wire parameters of a `GetBlockHeadersMessage`, as built by
`FetchRequestStage::request`. -/
structure GetBlockHeadersMessageParams where
  start_block : Nat
  limit : Nat
  skip : Nat
  reverse : Nat
  deriving DecidableEq

/-- A `GetBlockHeadersMessage`: a correlation id plus the wire parameters. -/
structure GetBlockHeadersMessage where
  request_id : Nat
  params : GetBlockHeadersMessageParams
  deriving DecidableEq

/-- Modelled from the spec: the peer-selection policy handed to `try_send`
("random sample of N peers"). -/
inductive PeerFilter
  | Random : Nat → PeerFilter
  deriving DecidableEq

/-- Modelled from the spec: the outcome of one `try_send_message` call on the
sentry gateway (`sentry_client_reactor.rs` is not under `src/`): success, a
`SendMessageError::SendQueueFull`, a `SendMessageError::ReactorStopped`, or an
error that is not a `SendMessageError` at all. -/
inductive SendResult
  | ok
  | queueFull
  | stopped
  | otherError
  deriving DecidableEq

/-- One message handed to the gateway, together with its peer filter. -/
structure SentMessage where
  message : GetBlockHeadersMessage
  peer_filter : PeerFilter
  deriving DecidableEq

/-- Embeds `FetchRequestStage::request`: builds the `GetBlockHeadersMessage`
with `skip = 0`, `reverse = 0` and hands it to the gateway with
`PeerFilter::Random(1)`.  `gw attempt` is the gateway's reply to this, the
`attempt`-th, `try_send_message` call of the scan. -/
def request (gw : Nat → SendResult) (attempt : Nat)
    (request_id block_num limit : Nat) : SentMessage × SendResult :=
  ({ message :=
      { request_id := request_id,
        params :=
          { start_block := block_num, limit := limit, skip := 0, reverse := 0 } },
     peer_filter := PeerFilter.Random 1 },
   gw attempt)

/-- How the visitor of `request_pending` short-circuits the scan: a
`ReactorStopped` send error, or a send error that is not a
`SendMessageError` (both are returned as `Some(Err(..))` from the visitor). -/
inductive ScanError
  | stopped
  | other
  deriving DecidableEq

/-- The modulus of the source's `last_request_id: AtomicU64`: `fetch_add`
wraps at `2 ^ 64`. -/
def u64size : Nat := 2 ^ 64

/-- The state threaded through the `request_pending` scan: the
`last_request_id` counter, the number of `try_send` attempts made so far
(this indexes the gateway behaviour `gw`), the monotone clock backing
`Instant::now`, and the log of messages handed to the gateway paired with the
gateway's reply to each.

`lastRequestId` is the ghost unwrapped counter — the initial value plus the
number of `fetch_add` calls so far.  The source's `AtomicU64` register holds
`lastRequestId % u64size`, and that register value is what each `fetch_add`
returns, so every drawn request id is reduced modulo `u64size` at the draw
site; iterated wrapping increments agree with reducing the ghost counter at
each observation. -/
structure ScanState where
  lastRequestId : Nat
  attempts : Nat
  clock : Nat
  log : List (SentMessage × SendResult)
  deriving DecidableEq

/-- Embeds the visitor loop of `FetchRequestStage::request_pending` run over
all slices of the store.  `HeaderSlices::for_each` (modelled from the spec;
`header_slices.rs` is not under `src/`) visits every slice in order and a
`Some` return short-circuits the scan, yielding that value as its result.

Per slice the visitor: skips it unless its status is `Empty`; otherwise draws
the next request id with `fetch_add` on the `AtomicU64` counter (the drawn id
is the u64 register value, i.e. the ghost counter reduced modulo `u64size`,
and the register wraps), hands a message to the gateway via
`request`, and classifies the reply — on success it upgrades the slice lock,
sets `request_time = now` and the status to `Waiting` in one critical section
and continues; on `SendQueueFull` it short-circuits with `Ok`; on any other
error it short-circuits with that error.  Slices at and after a
short-circuit are left untouched. -/
def requestPendingGo (gw : Nat → SendResult) :
    List HeaderSlice → ScanState →
      List HeaderSlice × ScanState × Except ScanError Unit
  | [], st => ([], st, Except.ok ())
  | s :: rest, st =>
    if s.status = HeaderSliceStatus.Empty then
      let sent := request gw st.attempts (st.lastRequestId % u64size) s.start_block_num
        (HEADER_SLICE_SIZE + 1)
      let st1 : ScanState :=
        { lastRequestId := st.lastRequestId + 1, attempts := st.attempts + 1,
          clock := st.clock, log := st.log ++ [sent] }
      match sent.2 with
      | SendResult.queueFull => (s :: rest, st1, Except.ok ())
      | SendResult.stopped => (s :: rest, st1, Except.error ScanError.stopped)
      | SendResult.otherError => (s :: rest, st1, Except.error ScanError.other)
      | SendResult.ok =>
        let s2 : HeaderSlice :=
          { start_block_num := s.start_block_num,
            status := HeaderSliceStatus.Waiting,
            request_time := some st.clock }
        let r := requestPendingGo gw rest { st1 with clock := st.clock + 1 }
        (s2 :: r.1, r.2.1, r.2.2)
    else
      let r := requestPendingGo gw rest st
      (s :: r.1, r.2.1, r.2.2)

/-- Embeds `FetchRequestStage::request_pending`: the scan starts from the
current counter value with attempt index 0 and an empty log. -/
def requestPending (gw : Nat → SendResult) (slices : List HeaderSlice)
    (lastRequestId clock : Nat) :
    List HeaderSlice × ScanState × Except ScanError Unit :=
  requestPendingGo gw slices
    { lastRequestId := lastRequestId, attempts := 0, clock := clock, log := [] }

/-- Modelled from the spec: `HeaderSlices::count_slices_in_status`; the store
invariant makes the aggregate counter equal the number of slices currently in
that status. -/
def countSlicesInStatus (slices : List HeaderSlice)
    (status : HeaderSliceStatus) : Nat :=
  (slices.filter fun s => s.status = status).length

/-- Embeds `FetchRequestStage::pending_count`: the number of `Empty` slices. -/
def pendingCount (slices : List HeaderSlice) : Nat :=
  countSlicesInStatus slices HeaderSliceStatus.Empty

/-- Modelled from the spec: the pending-wait loop of `execute` on the
`Empty`-count watch subscription (`HeaderSlices::watch_status_changes`, not
under `src/`, backed by a tokio watch channel).  `v` is the value read by
`borrow_and_update`; each element of `evs` is one resolution of `changed()`:
`some w` is a wake after which `borrow_and_update` reads `w`, and `none` means
the producer side is gone, so `changed()` returns an error.  The loop exits
successfully on the first non-zero value read, errors on a closed producer,
and `none` means it is still suspended after all listed wakes. -/
def watchWait : Nat → List (Option Nat) → Option (Except Unit Nat)
  | v, [] => if v = 0 then none else some (Except.ok v)
  | v, e :: rest =>
    if v = 0 then
      match e with
      | some w => watchWait w rest
      | none => some (Except.error ())
    else some (Except.ok v)

/-- The error cases `execute` can surface: the watch subscription's producer
is gone, a `ReactorStopped` send failure, an unclassified send failure, or a
failure of the capacity future. -/
inductive ExecError
  | watchClosed
  | sendStopped
  | sendOther
  | capacityGone
  deriving DecidableEq

deriving instance DecidableEq for Except

/-- The observable outcome of one `execute` call: the slices after the call,
the counter and clock, the log of gateway attempts, whether the call awaited
the capacity future before returning, and its `Result`. -/
structure ExecResult where
  slices : List HeaderSlice
  lastRequestId : Nat
  clock : Nat
  log : List (SentMessage × SendResult)
  awaitedCapacity : Bool
  result : Except ExecError Unit
  deriving DecidableEq

/-- The scan-and-backpressure tail of `execute`: run `request_pending`,
propagate its error if any; otherwise, if `Empty` slices remain (the scan was
cut short by a full queue), obtain the capacity future and await it —
`capacity` is its eventual value — and return its verdict; otherwise return
success without awaiting. -/
def executeScan (gw : Nat → SendResult) (capacity : Except Unit Unit)
    (slices : List HeaderSlice) (lastId clock : Nat) : ExecResult :=
  let scan := requestPending gw slices lastId clock
  let base : ExecResult :=
    { slices := scan.1, lastRequestId := scan.2.1.lastRequestId,
      clock := scan.2.1.clock, log := scan.2.1.log,
      awaitedCapacity := false, result := Except.ok () }
  match scan.2.2 with
  | Except.error ScanError.stopped =>
    { base with result := Except.error ExecError.sendStopped }
  | Except.error ScanError.other =>
    { base with result := Except.error ExecError.sendOther }
  | Except.ok _ =>
    if 0 < pendingCount scan.1 then
      match capacity with
      | Except.ok _ => { base with awaitedCapacity := true }
      | Except.error _ =>
        { base with awaitedCapacity := true,
                    result := Except.error ExecError.capacityGone }
    else base

/-- Embeds `FetchRequestStage::execute`: if no slice is `Empty`, loop on the
pending watch until a non-zero count is read (`none` while still suspended
there, a `watchClosed` error if the producer is gone); then run the scan and
the backpressure tail. -/
def execute (gw : Nat → SendResult) (watchV : Nat)
    (watchEvs : List (Option Nat)) (capacity : Except Unit Unit)
    (slices : List HeaderSlice) (lastId clock : Nat) : Option ExecResult :=
  if pendingCount slices = 0 then
    match watchWait watchV watchEvs with
    | none => none
    | some (Except.error _) =>
      some { slices := slices, lastRequestId := lastId, clock := clock,
             log := [], awaitedCapacity := false,
             result := Except.error ExecError.watchClosed }
    | some (Except.ok _) => some (executeScan gw capacity slices lastId clock)
  else some (executeScan gw capacity slices lastId clock)

/-- One environment for one `execute` call on a long-lived stage instance:
what the other pipeline stages do to the store between calls, the gateway's
behaviour during the call, the watch values, and the capacity future's
value. -/
structure CallEnv where
  mutate : List HeaderSlice → List HeaderSlice
  gw : Nat → SendResult
  watchV : Nat
  watchEvs : List (Option Nat)
  capacity : Except Unit Unit

/-- Repeatedly invokes `execute` on one `FetchRequestStage` instance,
threading the store, the `last_request_id` counter and the clock through the
calls, and collecting each call's gateway log; stops if a call stays
suspended. -/
def executeMany :
    List CallEnv → List HeaderSlice → Nat → Nat →
      List HeaderSlice × Nat × Nat × List (List (SentMessage × SendResult))
  | [], slices, lastId, clock => (slices, lastId, clock, [])
  | env :: rest, slices, lastId, clock =>
    let slices1 := env.mutate slices
    match execute env.gw env.watchV env.watchEvs env.capacity slices1 lastId
        clock with
    | none => (slices1, lastId, clock, [])
    | some res =>
      let r := executeMany rest res.slices res.lastRequestId res.clock
      (r.1, r.2.1, r.2.2.1, res.log :: r.2.2.2)

/-- The request id carried by one logged gateway attempt. -/
def entryId (m : SentMessage × SendResult) : Nat :=
  m.1.message.request_id

/-- Every gateway attempt made over a run of `executeMany`, in issuance
order. -/
def allRequestLog (envs : List CallEnv) (slices : List HeaderSlice)
    (lastId clock : Nat) : List (SentMessage × SendResult) :=
  ((executeMany envs slices lastId clock).2.2.2).flatten

/-- What `request_pending` may do to one slice: leave it untouched, or
transition it from `Empty` to `Waiting` while setting `request_time`, both in
the same exclusive critical section. -/
def SliceStep (a b : HeaderSlice) : Prop :=
  b = a ∨
    (a.status = HeaderSliceStatus.Empty ∧
      b.status = HeaderSliceStatus.Waiting ∧
      b.request_time.isSome = true ∧
      b.start_block_num = a.start_block_num)

/-- What one fully successful scan does to one slice: every `Empty` slice is
transitioned to `Waiting` with `request_time` set, every other slice is left
untouched. -/
def ProgressStep (a b : HeaderSlice) : Prop :=
  if a.status = HeaderSliceStatus.Empty then
    b.status = HeaderSliceStatus.Waiting ∧ b.request_time.isSome = true ∧
      b.start_block_num = a.start_block_num
  else b = a

/-- The operations touching the sentry lock in the backpressure tail of
`execute` (source lines 63-70), in source order: the inner block takes
`sentry.read()`, calls `reserve_capacity_in_send_queue()` on the guard, the
guard is dropped at the end of that block, and only then is the returned
future awaited. -/
inductive SentryLockEvent
  | acquireRead
  | obtainCapacityFuture
  | releaseRead
  | awaitFuture
  deriving DecidableEq

/-- The event trace of the backpressure tail, transcribed from the block
structure of `execute`: the read guard's scope ends before the `await`. -/
def capacityAwaitTrace : List SentryLockEvent :=
  [SentryLockEvent.acquireRead, SentryLockEvent.obtainCapacityFuture,
   SentryLockEvent.releaseRead, SentryLockEvent.awaitFuture]

/-- Number of read locks on the sentry held after executing a prefix of the
trace. -/
def locksHeldAfter (t : List SentryLockEvent) : Nat :=
  t.foldl
    (fun n e =>
      match e with
      | SentryLockEvent.acquireRead => n + 1
      | SentryLockEvent.releaseRead => n - 1
      | _ => n)
    0

@[simp] theorem request_snd (gw : Nat → SendResult) (a i b l : Nat) :
    (request gw a i b l).2 = gw a := rfl

@[simp] theorem entryId_request (gw : Nat → SendResult) (a i b l : Nat) :
    entryId (request gw a i b l) = i := rfl

@[simp] theorem pendingCount_nil : pendingCount [] = 0 := rfl

theorem pendingCount_cons (s : HeaderSlice) (l : List HeaderSlice) :
    pendingCount (s :: l) =
      (if s.status = HeaderSliceStatus.Empty then 1 else 0) + pendingCount l := by
  by_cases hs : s.status = HeaderSliceStatus.Empty <;>
    simp [pendingCount, countSlicesInStatus, List.filter_cons, hs, Nat.add_comm]

theorem sliceStep_refl : ∀ l : List HeaderSlice, List.Forall₂ SliceStep l l := by
  intro l
  induction l with
  | nil => exact List.Forall₂.nil
  | cons a t ih => exact List.Forall₂.cons (Or.inl rfl) ih

/-- The scan either leaves a slice untouched or fully transitions it from
`Empty` to `Waiting` with `request_time` set, whatever the gateway does. -/
theorem requestPendingGo_forall₂ (gw : Nat → SendResult) :
    ∀ (slices : List HeaderSlice) (st : ScanState),
      List.Forall₂ SliceStep slices (requestPendingGo gw slices st).1 := by
  intro slices
  induction slices with
  | nil => intro st; simp [requestPendingGo]
  | cons s rest ih =>
    intro st
    by_cases hs : s.status = HeaderSliceStatus.Empty
    · cases hr : gw st.attempts with
      | ok =>
        simp only [requestPendingGo, hs, if_pos, request_snd, hr]
        exact List.Forall₂.cons (Or.inr ⟨hs, rfl, rfl, rfl⟩) (ih _)
      | queueFull =>
        simp only [requestPendingGo, hs, if_pos, request_snd, hr]
        exact sliceStep_refl _
      | stopped =>
        simp only [requestPendingGo, hs, if_pos, request_snd, hr]
        exact sliceStep_refl _
      | otherError =>
        simp only [requestPendingGo, hs, if_pos, request_snd, hr]
        exact sliceStep_refl _
    · simp only [requestPendingGo, hs, if_neg, if_false]
      exact List.Forall₂.cons (Or.inl rfl) (ih st)

/-- Log and counter bookkeeping of the scan: the log grows by a suffix of
freshly attempted messages whose request ids are exactly the next
`new.length` counter values, and counter and attempt index advance by one per
attempted message; at most one attempt is made per `Empty` slice. -/
theorem requestPendingGo_log (gw : Nat → SendResult) :
    ∀ (slices : List HeaderSlice) (st : ScanState),
      ∃ new : List (SentMessage × SendResult),
        (requestPendingGo gw slices st).2.1.log = st.log ++ new ∧
        new.map entryId =
          (List.range' st.lastRequestId new.length).map (fun x => x % u64size) ∧
        (requestPendingGo gw slices st).2.1.lastRequestId =
          st.lastRequestId + new.length ∧
        (requestPendingGo gw slices st).2.1.attempts =
          st.attempts + new.length ∧
        new.length ≤ pendingCount slices := by
  intro slices
  induction slices with
  | nil => intro st; exact ⟨[], by simp [requestPendingGo]⟩
  | cons s rest ih =>
    intro st
    by_cases hs : s.status = HeaderSliceStatus.Empty
    · cases hr : gw st.attempts with
      | ok =>
        obtain ⟨new', h1, h2, h3, h4, h5⟩ :=
          ih { lastRequestId := st.lastRequestId + 1, attempts := st.attempts + 1,
               clock := st.clock + 1,
               log := st.log ++ [request gw st.attempts (st.lastRequestId % u64size)
                 s.start_block_num (HEADER_SLICE_SIZE + 1)] }
        refine ⟨request gw st.attempts (st.lastRequestId % u64size) s.start_block_num
          (HEADER_SLICE_SIZE + 1) :: new', ?_, ?_, ?_, ?_, ?_⟩
        · simp only [requestPendingGo, hs, if_pos, request_snd, hr]
          simpa using h1
        · simpa [List.range'_succ] using h2
        · simp only [requestPendingGo, hs, if_pos, request_snd, hr]
          simp only [List.length_cons]
          dsimp only at h3 ⊢
          omega
        · simp only [requestPendingGo, hs, if_pos, request_snd, hr]
          simp only [List.length_cons]
          dsimp only at h4 ⊢
          omega
        · simp only [List.length_cons, pendingCount_cons, hs, if_pos]
          omega
      | queueFull =>
        refine ⟨[request gw st.attempts (st.lastRequestId % u64size) s.start_block_num
          (HEADER_SLICE_SIZE + 1)], ?_, ?_, ?_, ?_, ?_⟩
        all_goals try simp [requestPendingGo, hs, hr, pendingCount_cons]
      | stopped =>
        refine ⟨[request gw st.attempts (st.lastRequestId % u64size) s.start_block_num
          (HEADER_SLICE_SIZE + 1)], ?_, ?_, ?_, ?_, ?_⟩
        all_goals try simp [requestPendingGo, hs, hr, pendingCount_cons]
      | otherError =>
        refine ⟨[request gw st.attempts (st.lastRequestId % u64size) s.start_block_num
          (HEADER_SLICE_SIZE + 1)], ?_, ?_, ?_, ?_, ?_⟩
        all_goals try simp [requestPendingGo, hs, hr, pendingCount_cons]
    · obtain ⟨new', h1, h2, h3, h4, h5⟩ := ih st
      refine ⟨new', ?_, h2, ?_, ?_, ?_⟩ <;>
        simp only [requestPendingGo, hs, if_neg, if_false, pendingCount_cons,
          h1, h3, h4] <;> omega

/-- Every message in the scan's log was built for an `Empty` slice of the
visited list, with `limit = HEADER_SLICE_SIZE + 1`, `skip = 0`, `reverse = 0`
and `PeerFilter::Random(1)` — unless it was already in the log before the
scan. -/
theorem requestPendingGo_msg_shape (gw : Nat → SendResult) :
    ∀ (slices : List HeaderSlice) (st : ScanState),
      ∀ m ∈ (requestPendingGo gw slices st).2.1.log,
        m ∈ st.log ∨
          (m.1.message.params.limit = HEADER_SLICE_SIZE + 1 ∧
            m.1.message.params.skip = 0 ∧ m.1.message.params.reverse = 0 ∧
            m.1.peer_filter = PeerFilter.Random 1 ∧
            ∃ s ∈ slices, s.status = HeaderSliceStatus.Empty ∧
              m.1.message.params.start_block = s.start_block_num) := by
  intro slices
  induction slices with
  | nil => intro st m hm; exact Or.inl (by simpa [requestPendingGo] using hm)
  | cons s rest ih =>
    intro st m hm
    by_cases hs : s.status = HeaderSliceStatus.Empty
    · cases hr : gw st.attempts with
      | ok =>
        simp only [requestPendingGo, hs, if_pos, request_snd, hr] at hm
        rcases ih _ m hm with hold | hnew
        · rcases List.mem_append.mp hold with hl | hl
          · exact Or.inl hl
          · refine Or.inr ?_
            have : m = request gw st.attempts (st.lastRequestId % u64size)
                s.start_block_num (HEADER_SLICE_SIZE + 1) := by
              simpa using hl
            subst this
            exact ⟨rfl, rfl, rfl, rfl, s, List.mem_cons_self .., hs, rfl⟩
        · obtain ⟨hlim, hskip, hrev, hpeer, s', hs', hstat, hblock⟩ := hnew
          exact Or.inr ⟨hlim, hskip, hrev, hpeer, s',
            List.mem_cons_of_mem _ hs', hstat, hblock⟩
      | queueFull =>
        simp only [requestPendingGo, hs, if_pos, request_snd, hr] at hm
        rcases List.mem_append.mp hm with hl | hl
        · exact Or.inl hl
        · refine Or.inr ?_
          have : m = request gw st.attempts (st.lastRequestId % u64size)
              s.start_block_num (HEADER_SLICE_SIZE + 1) := by
            simpa using hl
          subst this
          exact ⟨rfl, rfl, rfl, rfl, s, List.mem_cons_self .., hs, rfl⟩
      | stopped =>
        simp only [requestPendingGo, hs, if_pos, request_snd, hr] at hm
        rcases List.mem_append.mp hm with hl | hl
        · exact Or.inl hl
        · refine Or.inr ?_
          have : m = request gw st.attempts (st.lastRequestId % u64size)
              s.start_block_num (HEADER_SLICE_SIZE + 1) := by
            simpa using hl
          subst this
          exact ⟨rfl, rfl, rfl, rfl, s, List.mem_cons_self .., hs, rfl⟩
      | otherError =>
        simp only [requestPendingGo, hs, if_pos, request_snd, hr] at hm
        rcases List.mem_append.mp hm with hl | hl
        · exact Or.inl hl
        · refine Or.inr ?_
          have : m = request gw st.attempts (st.lastRequestId % u64size)
              s.start_block_num (HEADER_SLICE_SIZE + 1) := by
            simpa using hl
          subst this
          exact ⟨rfl, rfl, rfl, rfl, s, List.mem_cons_self .., hs, rfl⟩
    · simp only [requestPendingGo, hs, if_neg, if_false] at hm
      rcases ih st m hm with hold | hnew
      · exact Or.inl hold
      · obtain ⟨hlim, hskip, hrev, hpeer, s', hs', hstat, hblock⟩ := hnew
        exact Or.inr ⟨hlim, hskip, hrev, hpeer, s',
          List.mem_cons_of_mem _ hs', hstat, hblock⟩

/-- The scan verdict determined by the gateway's reply to the last attempted
message: a final `ReactorStopped` or unclassified error aborts the scan with
that error; anything else (no attempt, all successes, or a final
`SendQueueFull`) yields `Ok`. -/
def scanVerdict (new : List (SentMessage × SendResult)) : Except ScanError Unit :=
  match (new.map Prod.snd).getLast? with
  | some SendResult.stopped => Except.error ScanError.stopped
  | some SendResult.otherError => Except.error ScanError.other
  | _ => Except.ok ()

theorem scanVerdict_cons_ok (m : SentMessage × SendResult)
    (l : List (SentMessage × SendResult)) (hm : m.2 = SendResult.ok) :
    scanVerdict (m :: l) = scanVerdict l := by
  cases l with
  | nil => simp [scanVerdict, hm]
  | cons a t => simp [scanVerdict]

/-- The scan's result is the verdict of its fresh log suffix, and every fresh
attempt except possibly the last succeeded (the scan continues only after a
success). -/
theorem requestPendingGo_verdict (gw : Nat → SendResult) :
    ∀ (slices : List HeaderSlice) (st : ScanState),
      ∃ new : List (SentMessage × SendResult),
        (requestPendingGo gw slices st).2.1.log = st.log ++ new ∧
        (∀ m ∈ new.dropLast, m.2 = SendResult.ok) ∧
        (requestPendingGo gw slices st).2.2 = scanVerdict new := by
  intro slices
  induction slices with
  | nil => intro st; exact ⟨[], by simp [requestPendingGo, scanVerdict]⟩
  | cons s rest ih =>
    intro st
    by_cases hs : s.status = HeaderSliceStatus.Empty
    · cases hr : gw st.attempts with
      | ok =>
        obtain ⟨new', h1, h2, h3⟩ :=
          ih { lastRequestId := st.lastRequestId + 1, attempts := st.attempts + 1,
               clock := st.clock + 1,
               log := st.log ++ [request gw st.attempts (st.lastRequestId % u64size)
                 s.start_block_num (HEADER_SLICE_SIZE + 1)] }
        refine ⟨request gw st.attempts (st.lastRequestId % u64size) s.start_block_num
          (HEADER_SLICE_SIZE + 1) :: new', ?_, ?_, ?_⟩
        · simp only [requestPendingGo, hs, if_pos, request_snd, hr]
          simpa using h1
        · intro m hm
          cases new' with
          | nil => simp at hm
          | cons a t =>
            rw [List.dropLast_cons₂] at hm
            rcases List.mem_cons.mp hm with rfl | hm'
            · simp [hr]
            · exact h2 m hm'
        · simp only [requestPendingGo, hs, if_pos, request_snd, hr]
          rw [scanVerdict_cons_ok _ _ (by simp [hr])]
          exact h3
      | queueFull =>
        refine ⟨[request gw st.attempts (st.lastRequestId % u64size) s.start_block_num
          (HEADER_SLICE_SIZE + 1)], ?_, ?_, ?_⟩ <;>
          simp [requestPendingGo, hs, hr, scanVerdict]
      | stopped =>
        refine ⟨[request gw st.attempts (st.lastRequestId % u64size) s.start_block_num
          (HEADER_SLICE_SIZE + 1)], ?_, ?_, ?_⟩ <;>
          simp [requestPendingGo, hs, hr, scanVerdict]
      | otherError =>
        refine ⟨[request gw st.attempts (st.lastRequestId % u64size) s.start_block_num
          (HEADER_SLICE_SIZE + 1)], ?_, ?_, ?_⟩ <;>
          simp [requestPendingGo, hs, hr, scanVerdict]
    · obtain ⟨new', h1, h2, h3⟩ := ih st
      exact ⟨new', by simpa [requestPendingGo, hs] using h1, h2,
        by simpa [requestPendingGo, hs] using h3⟩

/-- When the scan aborts with an error, the slice it aborted on and every
slice after it are returned untouched, and the aborting slice was `Empty`. -/
theorem requestPendingGo_error_suffix (gw : Nat → SendResult) :
    ∀ (slices : List HeaderSlice) (st : ScanState) (e : ScanError),
      (requestPendingGo gw slices st).2.2 = Except.error e →
      ∃ n, n < slices.length ∧
        (requestPendingGo gw slices st).1.drop n = slices.drop n ∧
        ∃ s, slices[n]? = some s ∧ s.status = HeaderSliceStatus.Empty := by
  intro slices
  induction slices with
  | nil => intro st e h; simp [requestPendingGo] at h
  | cons s rest ih =>
    intro st e h
    by_cases hs : s.status = HeaderSliceStatus.Empty
    · cases hr : gw st.attempts with
      | ok =>
        simp only [requestPendingGo, hs, if_pos, request_snd, hr] at h ⊢
        obtain ⟨n, hn, hdrop, s', hget, hstat⟩ := ih _ e h
        exact ⟨n + 1, by simpa using Nat.succ_lt_succ hn,
          by simpa using hdrop, s', by simpa using hget, hstat⟩
      | queueFull =>
        simp only [requestPendingGo, hs, if_pos, request_snd, hr] at h
        exact absurd h (by simp)
      | stopped =>
        refine ⟨0, by simp, ?_, s, by simp, hs⟩
        simp [requestPendingGo, hs, hr]
      | otherError =>
        refine ⟨0, by simp, ?_, s, by simp, hs⟩
        simp [requestPendingGo, hs, hr]
    · simp only [requestPendingGo, hs, if_neg, if_false] at h ⊢
      obtain ⟨n, hn, hdrop, s', hget, hstat⟩ := ih st e h
      exact ⟨n + 1, by simpa using Nat.succ_lt_succ hn,
        by simpa using hdrop, s', by simpa using hget, hstat⟩

/-- Under a gateway that accepts every message, the scan completes with `Ok`,
transitions every `Empty` slice (and only those) to `Waiting` with
`request_time` set, leaves no `Empty` slice behind, and makes exactly one
attempt per `Empty` slice. -/
theorem requestPendingGo_allok (gw : Nat → SendResult)
    (hgw : ∀ n, gw n = SendResult.ok) :
    ∀ (slices : List HeaderSlice) (st : ScanState),
      (requestPendingGo gw slices st).2.2 = Except.ok () ∧
      List.Forall₂ ProgressStep slices (requestPendingGo gw slices st).1 ∧
      pendingCount (requestPendingGo gw slices st).1 = 0 ∧
      (requestPendingGo gw slices st).2.1.log.length =
        st.log.length + pendingCount slices := by
  intro slices
  induction slices with
  | nil => intro st; refine ⟨rfl, List.Forall₂.nil, rfl, by simp [requestPendingGo]⟩
  | cons s rest ih =>
    intro st
    by_cases hs : s.status = HeaderSliceStatus.Empty
    · obtain ⟨ih1, ih2, ih3, ih4⟩ :=
        ih { lastRequestId := st.lastRequestId + 1, attempts := st.attempts + 1,
             clock := st.clock + 1,
             log := st.log ++ [request gw st.attempts (st.lastRequestId % u64size)
               s.start_block_num (HEADER_SLICE_SIZE + 1)] }
      refine ⟨?_, ?_, ?_, ?_⟩
      · simpa only [requestPendingGo, hs, if_pos, request_snd, hgw] using ih1
      · simp only [requestPendingGo, hs, if_pos, request_snd, hgw]
        exact List.Forall₂.cons (by simp [ProgressStep, hs]) ih2
      · simp only [requestPendingGo, hs, if_pos, request_snd, hgw,
          pendingCount_cons]
        simpa using ih3
      · simp only [requestPendingGo, hs, if_pos, request_snd, hgw,
          pendingCount_cons, hs, if_pos]
        dsimp only at ih4 ⊢
        simp only [List.length_append, List.length_cons, List.length_nil] at ih4
        omega
    · obtain ⟨ih1, ih2, ih3, ih4⟩ := ih st
      refine ⟨?_, ?_, ?_, ?_⟩
      · simpa only [requestPendingGo, hs, if_neg, if_false] using ih1
      · simp only [requestPendingGo, hs, if_neg, if_false]
        exact List.Forall₂.cons (by simp [ProgressStep, hs]) ih2
      · simp only [requestPendingGo, hs, if_neg, if_false, pendingCount_cons]
        simpa [hs] using ih3
      · simp only [requestPendingGo, hs, if_neg, if_false, pendingCount_cons, hs]
        omega

/-- The wait loop only exits successfully on an observed strictly positive
count, which is either the first borrowed value or a later wake's value. -/
theorem watchWait_ok (w : Nat) :
    ∀ (evs : List (Option Nat)) (v : Nat),
      watchWait v evs = some (Except.ok w) →
      0 < w ∧ (v = w ∨ some w ∈ evs) := by
  intro evs
  induction evs with
  | nil =>
    intro v h
    by_cases hv : v = 0
    · simp [watchWait, hv] at h
    · simp only [watchWait, hv, if_neg, if_false, Option.some.injEq,
        Except.ok.injEq] at h
      subst h
      exact ⟨Nat.pos_of_ne_zero hv, Or.inl rfl⟩
  | cons e rest ih =>
    intro v h
    by_cases hv : v = 0
    · subst hv
      cases e with
      | some u =>
        simp only [watchWait, if_pos] at h
        obtain ⟨hw, hu⟩ := ih u h
        rcases hu with rfl | hm
        · exact ⟨hw, Or.inr (List.mem_cons_self ..)⟩
        · exact ⟨hw, Or.inr (List.mem_cons_of_mem _ hm)⟩
      | none => simp [watchWait] at h
    · simp only [watchWait, hv, if_neg, if_false, Option.some.injEq,
        Except.ok.injEq] at h
      subst h
      exact ⟨Nat.pos_of_ne_zero hv, Or.inl rfl⟩

/-- Spurious wakes are tolerated: as long as every wake re-reads a zero
count, the wait loop stays suspended. -/
theorem watchWait_zero :
    ∀ evs : List (Option Nat), (∀ e ∈ evs, e = some 0) →
      watchWait 0 evs = none := by
  intro evs
  induction evs with
  | nil => intro _; simp [watchWait]
  | cons e rest ih =>
    intro h
    have he : e = some 0 := h e (List.mem_cons_self ..)
    subst he
    simpa [watchWait] using ih fun e' he' => h e' (List.mem_cons_of_mem _ he')

/-- If the producer side goes away while only zero counts were observed, the
wait loop surfaces the subscription error. -/
theorem watchWait_closed (rest : List (Option Nat)) :
    ∀ zs : List (Option Nat), (∀ e ∈ zs, e = some 0) →
      watchWait 0 (zs ++ none :: rest) = some (Except.error ()) := by
  intro zs
  induction zs with
  | nil => intro _; simp [watchWait]
  | cons z t ih =>
    intro h
    have hz : z = some 0 := h z (List.mem_cons_self ..)
    subst hz
    simpa [watchWait] using ih fun e' he' => h e' (List.mem_cons_of_mem _ he')

theorem requestPending_def (gw : Nat → SendResult) (slices : List HeaderSlice)
    (lastId clock : Nat) :
    requestPending gw slices lastId clock =
      requestPendingGo gw slices
        { lastRequestId := lastId, attempts := 0, clock := clock, log := [] } :=
  rfl

/-- The slices, log and counter of `executeScan` come from the scan itself,
whatever the verdict and the capacity future's outcome. -/
theorem executeScan_scan (gw : Nat → SendResult) (capacity : Except Unit Unit)
    (slices : List HeaderSlice) (lastId clock : Nat) :
    (executeScan gw capacity slices lastId clock).slices =
      (requestPending gw slices lastId clock).1 ∧
    (executeScan gw capacity slices lastId clock).log =
      (requestPending gw slices lastId clock).2.1.log ∧
    (executeScan gw capacity slices lastId clock).lastRequestId =
      (requestPending gw slices lastId clock).2.1.lastRequestId := by
  simp only [executeScan]
  cases h : (requestPending gw slices lastId clock).2.2 with
  | error e => cases e <;> simp [h]
  | ok u =>
    simp only [h]
    split
    · cases capacity <;> simp
    · simp

/-- A returned `execute` call either produced the scan tail's outcome, or
failed in the pending-wait with `watchClosed`, touching nothing. -/
theorem execute_cases (gw : Nat → SendResult) (watchV : Nat)
    (watchEvs : List (Option Nat)) (capacity : Except Unit Unit)
    (slices : List HeaderSlice) (lastId clock : Nat) (res : ExecResult)
    (h : execute gw watchV watchEvs capacity slices lastId clock = some res) :
    res = executeScan gw capacity slices lastId clock ∨
      (res.slices = slices ∧ res.log = [] ∧ res.lastRequestId = lastId ∧
        res.result = Except.error ExecError.watchClosed) := by
  unfold execute at h
  by_cases hp : pendingCount slices = 0
  · simp only [hp, if_pos] at h
    cases hw : watchWait watchV watchEvs with
    | none => rw [hw] at h; exact absurd h (by simp)
    | some r =>
      rw [hw] at h
      cases r with
      | error e =>
        simp only [Option.some.injEq] at h
        exact Or.inr (by simp [← h])
      | ok u =>
        simp only [Option.some.injEq] at h
        exact Or.inl h.symm
  · simp only [hp, if_neg, if_false, Option.some.injEq] at h
    exact Or.inl h.symm

/-- One `execute` call issues exactly the next `log.length` counter values,
each reduced modulo `u64size` (the u64 register wraps), as request ids, in
order, and advances the ghost counter by that amount. -/
theorem execute_ids (gw : Nat → SendResult) (watchV : Nat)
    (watchEvs : List (Option Nat)) (capacity : Except Unit Unit)
    (slices : List HeaderSlice) (lastId clock : Nat) (res : ExecResult)
    (h : execute gw watchV watchEvs capacity slices lastId clock = some res) :
    res.log.map entryId =
      (List.range' lastId res.log.length).map (fun x => x % u64size) ∧
    res.lastRequestId = lastId + res.log.length := by
  rcases execute_cases _ _ _ _ _ _ _ _ h with rfl | ⟨_, hlog, hlast, _⟩
  · obtain ⟨h1, h2, h3⟩ := executeScan_scan gw capacity slices lastId clock
    obtain ⟨new, g1, g2, g3, g4, g5⟩ := requestPendingGo_log gw slices
      { lastRequestId := lastId, attempts := 0, clock := clock, log := [] }
    rw [requestPending_def] at h2 h3
    simp only [List.nil_append] at g1
    rw [h2, h3, g1, g3]
    dsimp only
    exact ⟨g2, rfl⟩
  · simp [hlog, hlast]

/-- Across a whole run of `executeMany`, the request ids drawn (successful or
not) are exactly the consecutive ghost-counter values starting at the initial
counter, each reduced modulo `u64size` by the wrapping u64 register. -/
theorem executeMany_ids :
    ∀ (envs : List CallEnv) (slices : List HeaderSlice) (lastId clock : Nat),
      ((executeMany envs slices lastId clock).2.2.2.flatten).map entryId =
        (List.range' lastId
          ((executeMany envs slices lastId clock).2.2.2.flatten).length).map
            (fun x => x % u64size) ∧
      (executeMany envs slices lastId clock).2.1 =
        lastId + ((executeMany envs slices lastId clock).2.2.2.flatten).length := by
  intro envs
  induction envs with
  | nil => intro slices lastId clock; simp [executeMany]
  | cons env rest ih =>
    intro slices lastId clock
    unfold executeMany
    cases h : execute env.gw env.watchV env.watchEvs env.capacity
        (env.mutate slices) lastId clock with
    | none => simp only [h]; simp
    | some res =>
      obtain ⟨e1, e2⟩ := execute_ids _ _ _ _ _ _ _ _ h
      obtain ⟨i1, i2⟩ := ih res.slices res.lastRequestId res.clock
      simp only [h]
      constructor
      · rw [List.flatten_cons, List.map_append, e1, i1, e2,
          ← List.map_append, List.range'_append_1, List.length_append,
          Nat.add_comm]
      · rw [List.flatten_cons, List.length_append]
        omega

/-- When the scan completes with `Ok` and leaves no `Empty` slice, `execute`'s
tail returns success without awaiting the capacity future. -/
theorem executeScan_ok_of_scan_ok (gw : Nat → SendResult)
    (capacity : Except Unit Unit) (slices : List HeaderSlice)
    (lastId clock : Nat)
    (h1 : (requestPending gw slices lastId clock).2.2 = Except.ok ())
    (h2 : pendingCount (requestPending gw slices lastId clock).1 = 0) :
    executeScan gw capacity slices lastId clock =
      { slices := (requestPending gw slices lastId clock).1,
        lastRequestId := (requestPending gw slices lastId clock).2.1.lastRequestId,
        clock := (requestPending gw slices lastId clock).2.1.clock,
        log := (requestPending gw slices lastId clock).2.1.log,
        awaitedCapacity := false, result := Except.ok () } := by
  simp [executeScan, h1, h2]

/-- A scan aborted by a fatal send error makes `execute`'s tail surface the
corresponding fatal error without awaiting capacity. -/
theorem executeScan_error (gw : Nat → SendResult) (capacity : Except Unit Unit)
    (slices : List HeaderSlice) (lastId clock : Nat) (e : ScanError)
    (h : (requestPending gw slices lastId clock).2.2 = Except.error e) :
    (executeScan gw capacity slices lastId clock).result =
      Except.error
        (match e with
          | ScanError.stopped => ExecError.sendStopped
          | ScanError.other => ExecError.sendOther) ∧
    (executeScan gw capacity slices lastId clock).awaitedCapacity = false := by
  cases e <;> simp [executeScan, h]

/-- Reducing modulo `m` is the identity on a `range'` that stays below `m`. -/
theorem range'_map_mod_eq (s n m : Nat) (h : s + n ≤ m) :
    (List.range' s n).map (fun x => x % m) = List.range' s n := by
  have hb : ∀ x ∈ List.range' s n, x % m = x := by
    intro x hx
    exact Nat.mod_eq_of_lt (lt_of_lt_of_le (List.mem_range'_1.mp hx).2 h)
  calc (List.range' s n).map (fun x => x % m)
      = (List.range' s n).map (fun x => x) := List.map_congr_left hb
    _ = List.range' s n := List.map_id' _

/-- Two `Empty` fixture slices, used by witnesses and counterexamples. -/
def twoSlices : List HeaderSlice :=
  [{ start_block_num := 100, status := HeaderSliceStatus.Empty,
     request_time := none },
   { start_block_num := 200, status := HeaderSliceStatus.Empty,
     request_time := none }]

/-- A call environment with an all-accepting gateway, used by the wrap
counterexamples. -/
def envAllOk : CallEnv :=
  { mutate := id, gw := fun _ => SendResult.ok,
    watchV := 0, watchEvs := [], capacity := Except.ok () }

/-- Counterexample to C4 as stated: with the u64 counter at `2 ^ 64 - 1`
(the register state after that many draws), one call over two `Empty` slices
draws the ids `2 ^ 64 - 1` and then `0` — the wrapped `fetch_add` makes the
drawn ids fail to be strictly increasing. -/
theorem execute_request_ids_wrap_counterexample :
    (allRequestLog [envAllOk] twoSlices (u64size - 1) 0).map entryId =
      [u64size - 1, 0] ∧
    ¬List.Pairwise (· < ·)
      ((allRequestLog [envAllOk] twoSlices (u64size - 1) 0).map entryId) := by
  constructor
  · decide
  · intro hpw
    rw [show (allRequestLog [envAllOk] twoSlices (u64size - 1) 0).map entryId =
        [u64size - 1, 0] by decide] at hpw
    have := List.rel_of_pairwise_cons hpw (List.mem_singleton.mpr rfl)
    omega

/-- C4 (amended): across arbitrarily many `execute()` calls on one
`FetchRequestStage` instance — with the other pipeline stages free to mutate
the store between calls — the `request_id` values drawn from the
`last_request_id` counter are strictly increasing in issuance order and never
repeated, as long as the wrapping u64 counter does not wrap, i.e. while the
initial counter value plus the total number of ids drawn stays within
`2 ^ 64`. -/
theorem execute_request_ids_strictly_monotone
    (envs : List CallEnv) (slices : List HeaderSlice) (lastId clock : Nat)
    (hnw : lastId + (allRequestLog envs slices lastId clock).length ≤
      u64size) :
    List.Pairwise (· < ·)
      ((allRequestLog envs slices lastId clock).map entryId) ∧
    ((allRequestLog envs slices lastId clock).map entryId).Nodup := by
  obtain ⟨h1, _⟩ := executeMany_ids envs slices lastId clock
  unfold allRequestLog at hnw ⊢
  rw [h1, range'_map_mod_eq _ _ _ hnw]
  exact ⟨List.pairwise_lt_range' _ _, List.nodup_range' _ _⟩

/-- Witness for C4 at a concrete input. -/
theorem execute_request_ids_strictly_monotone_witness :
    List.Pairwise (· < ·)
      ((allRequestLog [envAllOk] twoSlices 3 0).map entryId) ∧
    ((allRequestLog [envAllOk] twoSlices 3 0).map entryId).Nodup :=
  execute_request_ids_strictly_monotone [envAllOk] twoSlices 3 0 (by decide)

/-- C5: after any `execute()` call, succeeding or failing, every slice is
either left with its prior value, or has its status set to `Waiting` and its
`request_time` set together; no slice is left with only one of the two
updated. -/
theorem execute_atomic_slice_transition
    (gw : Nat → SendResult) (watchV : Nat) (watchEvs : List (Option Nat))
    (capacity : Except Unit Unit) (slices : List HeaderSlice)
    (lastId clock : Nat) (res : ExecResult)
    (h : execute gw watchV watchEvs capacity slices lastId clock = some res) :
    List.Forall₂ SliceStep slices res.slices := by
  rcases execute_cases _ _ _ _ _ _ _ _ h with rfl | ⟨hsl, _, _, _⟩
  · obtain ⟨h1, _, _⟩ := executeScan_scan gw capacity slices lastId clock
    rw [h1, requestPending_def]
    exact requestPendingGo_forall₂ gw slices _
  · rw [hsl]
    exact sliceStep_refl slices

/-- A concrete non-`Empty` slice fixture used by witnesses. -/
def sliceOther7 : HeaderSlice :=
  { start_block_num := 7, status := HeaderSliceStatus.Other,
    request_time := none }

/-- The outcome of `execute` on the single non-`Empty` fixture slice. -/
def execOther7 : ExecResult :=
  { slices := [sliceOther7], lastRequestId := 5, clock := 9, log := [],
    awaitedCapacity := false, result := Except.ok () }

/-- Witness for C5 at a concrete input. -/
theorem execute_atomic_slice_transition_witness :
    List.Forall₂ SliceStep [sliceOther7] execOther7.slices :=
  execute_atomic_slice_transition (fun _ => SendResult.ok) 1 [] (Except.ok ())
    [sliceOther7] 5 9 execOther7 (by decide)

/-- C6: the scan skips every non-`Empty` slice untouched (no request is
built for it and no request id is drawn for it — each logged message belongs
to an `Empty` slice and exactly one counter value is drawn per logged
message), and the only transition ever performed is `Empty` to `Waiting`. -/
theorem scan_selects_only_empty (gw : Nat → SendResult)
    (slices : List HeaderSlice) (lastId clock : Nat) :
    List.Forall₂
      (fun a b => (a.status ≠ HeaderSliceStatus.Empty → b = a) ∧ SliceStep a b)
      slices (requestPending gw slices lastId clock).1 ∧
    (∀ m ∈ (requestPending gw slices lastId clock).2.1.log,
      ∃ s ∈ slices, s.status = HeaderSliceStatus.Empty ∧
        m.1.message.params.start_block = s.start_block_num) ∧
    (requestPending gw slices lastId clock).2.1.lastRequestId =
      lastId + (requestPending gw slices lastId clock).2.1.log.length ∧
    (requestPending gw slices lastId clock).2.1.log.length ≤
      pendingCount slices := by
  obtain ⟨new, g1, g2, g3, g4, g5⟩ := requestPendingGo_log gw slices
    { lastRequestId := lastId, attempts := 0, clock := clock, log := [] }
  simp only [List.nil_append] at g1
  refine ⟨?_, ?_, ?_, ?_⟩
  · rw [requestPending_def]
    exact List.Forall₂.imp
      (fun a b hab => ⟨fun hne => hab.elim id fun hc => absurd hc.1 hne, hab⟩)
      (requestPendingGo_forall₂ gw slices _)
  · intro m hm
    rw [requestPending_def] at hm
    rcases requestPendingGo_msg_shape gw slices _ m hm with hin | hshape
    · simp at hin
    · obtain ⟨_, _, _, _, s, hsmem, hstat, hblock⟩ := hshape
      exact ⟨s, hsmem, hstat, hblock⟩
  · rw [requestPending_def, g1, g3]
  · rw [requestPending_def, g1]
    exact g5

/-- Witness for C6 at a concrete input. -/
theorem scan_selects_only_empty_witness :
    (requestPending (fun _ => SendResult.ok)
        [{ start_block_num := 100, status := HeaderSliceStatus.Empty,
           request_time := none }] 0 0).2.1.lastRequestId =
      0 + (requestPending (fun _ => SendResult.ok)
        [{ start_block_num := 100, status := HeaderSliceStatus.Empty,
           request_time := none }] 0 0).2.1.log.length :=
  (scan_selects_only_empty (fun _ => SendResult.ok)
    [{ start_block_num := 100, status := HeaderSliceStatus.Empty,
       request_time := none }] 0 0).2.2.1

/-- Counterexample to C2 as stated: with the u64 counter at `2 ^ 64 - 1`,
one all-successful `execute()` call over two `Empty` slices issues the ids
`2 ^ 64 - 1` and then `0` — the wrapped second id is not strictly greater
than the id issued just before it. -/
theorem execute_progress_wrap_counterexample :
    (execute (fun _ => SendResult.ok) 0 [] (Except.ok ()) twoSlices
        (u64size - 1) 0).map
      (fun r => (r.log.map entryId, r.slices.map fun s => s.status)) =
      some ([u64size - 1, 0],
        [HeaderSliceStatus.Waiting, HeaderSliceStatus.Waiting]) ∧
    ¬(u64size - 1 < 0) := by
  exact ⟨by decide, by omega⟩

/-- C2 (amended): from any store state with at least one `Empty` slice, one
`execute()` call during which every `try_send` succeeds returns `Ok`,
transitions every `Empty` slice to `Waiting` with a non-null `request_time`
(leaving every other slice untouched), and issues one fresh request id per
`Empty` slice; provided the wrapping u64 counter does not wrap during the
call (current counter value plus the number of `Empty` slices within
`2 ^ 64`), the ids are the consecutive counter values starting at the current
counter, so each is strictly greater than every previously issued id. -/
theorem execute_progress (gw : Nat → SendResult) (watchV : Nat)
    (watchEvs : List (Option Nat)) (capacity : Except Unit Unit)
    (slices : List HeaderSlice) (lastId clock : Nat)
    (hgw : ∀ n, gw n = SendResult.ok) (hp : 0 < pendingCount slices)
    (hnw : lastId + pendingCount slices ≤ u64size) :
    ∃ res, execute gw watchV watchEvs capacity slices lastId clock = some res ∧
      res.result = Except.ok () ∧
      List.Forall₂ ProgressStep slices res.slices ∧
      res.log.length = pendingCount slices ∧
      res.log.map entryId = List.range' lastId (pendingCount slices) ∧
      res.lastRequestId = lastId + pendingCount slices := by
  have hne : ¬pendingCount slices = 0 := by omega
  obtain ⟨a1, a2, a3, a4⟩ := requestPendingGo_allok gw hgw slices
    { lastRequestId := lastId, attempts := 0, clock := clock, log := [] }
  have hsc := executeScan_ok_of_scan_ok gw capacity slices lastId clock
    (by rw [requestPending_def]; exact a1)
    (by rw [requestPending_def]; exact a3)
  have hlen : (requestPending gw slices lastId clock).2.1.log.length =
      pendingCount slices := by
    rw [requestPending_def]
    simpa using a4
  obtain ⟨g1, g2⟩ := execute_ids gw watchV watchEvs capacity slices lastId
    clock (executeScan gw capacity slices lastId clock)
    (by unfold execute; rw [if_neg hne])
  refine ⟨executeScan gw capacity slices lastId clock, ?_, ?_, ?_, ?_, ?_, ?_⟩
  · unfold execute; rw [if_neg hne]
  · rw [hsc]
  · rw [hsc]
    rw [requestPending_def]
    exact a2
  · rw [hsc]
    exact hlen
  · rw [g1]
    rw [hsc]
    rw [hlen]
    exact range'_map_mod_eq _ _ _ hnw
  · rw [g2]
    rw [hsc]
    rw [hlen]

/-- Witness for C2 at a concrete input. -/
theorem execute_progress_witness :
    ∃ res,
      execute (fun _ => SendResult.ok) 0 [] (Except.ok ())
          [{ start_block_num := 100, status := HeaderSliceStatus.Empty,
             request_time := none }] 0 0 = some res ∧
        res.result = Except.ok () ∧
        List.Forall₂ ProgressStep
          [{ start_block_num := 100, status := HeaderSliceStatus.Empty,
             request_time := none }] res.slices ∧
        res.log.length =
          pendingCount
            [{ start_block_num := 100, status := HeaderSliceStatus.Empty,
               request_time := none }] ∧
        res.log.map entryId =
          List.range' 0
            (pendingCount
              [{ start_block_num := 100, status := HeaderSliceStatus.Empty,
                 request_time := none }]) ∧
        res.lastRequestId =
          0 + pendingCount
            [{ start_block_num := 100, status := HeaderSliceStatus.Empty,
               request_time := none }] :=
  execute_progress (fun _ => SendResult.ok) 0 [] (Except.ok ())
    [{ start_block_num := 100, status := HeaderSliceStatus.Empty,
       request_time := none }] 0 0 (fun _ => rfl) (by decide) (by decide)

/-- The spec's concrete 3-slice scenario: `Empty` slices at blocks 100, 200,
300 with no request time. -/
def threeSlices : List HeaderSlice :=
  [{ start_block_num := 100, status := HeaderSliceStatus.Empty,
     request_time := none },
   { start_block_num := 200, status := HeaderSliceStatus.Empty,
     request_time := none },
   { start_block_num := 300, status := HeaderSliceStatus.Empty,
     request_time := none }]

/-- C7: every message handed to the gateway carries
`limit = HEADER_SLICE_SIZE + 1 = 193`, `skip = 0`, `reverse = 0`, is
addressed with `PeerFilter::Random(1)`, and its `start_block` is the
`start_block_num` of an `Empty` slice; in the concrete 3-slice scenario the
request ids are 0, 1, 2 in issuance order, the start blocks are 100, 200,
300, and all three slices become `Waiting`. -/
theorem request_message_contents (gw : Nat → SendResult) (watchV : Nat)
    (watchEvs : List (Option Nat)) (capacity : Except Unit Unit)
    (slices : List HeaderSlice) (lastId clock : Nat) (res : ExecResult)
    (h : execute gw watchV watchEvs capacity slices lastId clock = some res) :
    (∀ m ∈ res.log,
      m.1.message.params.limit = HEADER_SLICE_SIZE + 1 ∧
      m.1.message.params.limit = 193 ∧
      m.1.message.params.skip = 0 ∧
      m.1.message.params.reverse = 0 ∧
      m.1.peer_filter = PeerFilter.Random 1 ∧
      ∃ s ∈ slices, s.status = HeaderSliceStatus.Empty ∧
        m.1.message.params.start_block = s.start_block_num) ∧
    (execute (fun _ => SendResult.ok) 0 [] (Except.ok ()) threeSlices 0 0).map
        (fun r =>
          (r.log.map entryId,
           r.log.map fun m => m.1.message.params.start_block,
           r.slices.map fun s => s.status)) =
      some ([0, 1, 2], [100, 200, 300],
        [HeaderSliceStatus.Waiting, HeaderSliceStatus.Waiting,
         HeaderSliceStatus.Waiting]) := by
  constructor
  · intro m hm
    rcases execute_cases _ _ _ _ _ _ _ _ h with rfl | ⟨_, hlog, _, _⟩
    · obtain ⟨_, h2, _⟩ := executeScan_scan gw capacity slices lastId clock
      rw [h2, requestPending_def] at hm
      rcases requestPendingGo_msg_shape gw slices _ m hm with hin | hshape
      · simp at hin
      · obtain ⟨hlim, hskip, hrev, hpeer, s, hsmem, hstat, hblock⟩ := hshape
        exact ⟨hlim, by rw [hlim]; rfl, hskip, hrev, hpeer, s, hsmem, hstat,
          hblock⟩
    · rw [hlog] at hm
      simp at hm
  · decide

/-- Witness for C7 at a concrete input. -/
theorem request_message_contents_witness :
    (execute (fun _ => SendResult.ok) 0 [] (Except.ok ()) threeSlices 0 0).map
        (fun r =>
          (r.log.map entryId,
           r.log.map fun m => m.1.message.params.start_block,
           r.slices.map fun s => s.status)) =
      some ([0, 1, 2], [100, 200, 300],
        [HeaderSliceStatus.Waiting, HeaderSliceStatus.Waiting,
         HeaderSliceStatus.Waiting]) :=
  (request_message_contents (fun _ => SendResult.ok) 1 [] (Except.ok ())
    [sliceOther7] 5 9 execOther7 (by decide)).2

/-- The two-call environment showing a skipped request id: the first call's
gateway accepts one message and then reports a full queue, the second call's
gateway accepts everything. -/
def skipEnvs : List CallEnv :=
  [{ mutate := id,
     gw := fun n => if n = 0 then SendResult.ok else SendResult.queueFull,
     watchV := 0, watchEvs := [], capacity := Except.ok () },
   { mutate := id, gw := fun _ => SendResult.ok,
     watchV := 0, watchEvs := [], capacity := Except.ok () }]

/-- Counterexample to C10 as stated: with the u64 counter at `2 ^ 64 - 1`,
two successful sends carry the ids `2 ^ 64 - 1` and then `0` — after the
wrap, the ids of successfully sent messages are not strictly increasing. -/
theorem request_ids_sent_wrap_counterexample :
    ((allRequestLog [envAllOk] twoSlices (u64size - 1) 0).filter
        fun m => m.2 = SendResult.ok).map entryId = [u64size - 1, 0] ∧
    ¬List.Pairwise (· < ·)
      (((allRequestLog [envAllOk] twoSlices (u64size - 1) 0).filter
          fun m => m.2 = SendResult.ok).map entryId) := by
  constructor
  · decide
  · intro hpw
    rw [show ((allRequestLog [envAllOk] twoSlices (u64size - 1) 0).filter
          fun m => m.2 = SendResult.ok).map entryId = [u64size - 1, 0]
        by decide] at hpw
    have := List.rel_of_pairwise_cons hpw (List.mem_singleton.mpr rfl)
    omega

/-- C10 (amended): the request id is drawn from the counter before the send
is attempted; provided the wrapping u64 counter does not wrap over the run
(initial counter value plus the total number of attempts within `2 ^ 64`),
the ids of successfully sent messages are strictly increasing and an id
consumed by a failed send is never carried by any successful message; ids may
skip values across calls (in the concrete two-call run the successful ids are
0 and 2 — id 1 was consumed by the queue-full attempt). -/
theorem request_ids_consumed_before_send
    (envs : List CallEnv) (slices : List HeaderSlice) (lastId clock : Nat)
    (hnw : lastId + (allRequestLog envs slices lastId clock).length ≤
      u64size) :
    List.Pairwise (· < ·)
      (((allRequestLog envs slices lastId clock).filter
          fun m => m.2 = SendResult.ok).map entryId) ∧
    (∀ m ∈ allRequestLog envs slices lastId clock,
      m.2 ≠ SendResult.ok →
      entryId m ∉
        ((allRequestLog envs slices lastId clock).filter
          fun m => m.2 = SendResult.ok).map entryId) ∧
    ((allRequestLog skipEnvs twoSlices 0 0).filter
        fun m => m.2 = SendResult.ok).map entryId = [0, 2] := by
  obtain ⟨h1, _⟩ := executeMany_ids envs slices lastId clock
  have hid : (allRequestLog envs slices lastId clock).map entryId =
      List.range' lastId (allRequestLog envs slices lastId clock).length := by
    unfold allRequestLog at hnw ⊢
    rw [h1, range'_map_mod_eq _ _ _ hnw]
  have hpw : List.Pairwise (· < ·)
      ((allRequestLog envs slices lastId clock).map entryId) := by
    rw [hid]
    exact List.pairwise_lt_range' _ _
  have hnd : ((allRequestLog envs slices lastId clock).map entryId).Nodup := by
    rw [hid]
    exact List.nodup_range' _ _
  refine ⟨?_, ?_, by decide⟩
  · exact hpw.sublist
      (List.Sublist.map entryId (List.filter_sublist _))
  · intro m hm hbad hmem
    obtain ⟨g, hg, hge⟩ := List.mem_map.mp hmem
    obtain ⟨hgall, hgok⟩ := List.mem_filter.mp hg
    have : g = m :=
      List.inj_on_of_nodup_map hnd hgall hm hge
    subst this
    exact hbad (by simpa using hgok)

/-- Witness for C10 at a concrete input. -/
theorem request_ids_consumed_before_send_witness :
    List.Pairwise (· < ·)
      (((allRequestLog skipEnvs twoSlices 0 0).filter
          fun m => m.2 = SendResult.ok).map entryId) :=
  (request_ids_consumed_before_send skipEnvs twoSlices 0 0 (by decide)).1

/-- C9: in the backpressure tail of `execute`, the capacity future is
obtained while exactly one transient read lock on the sentry is held, that
lock is released before the await, and no sentry lock is held at any await
point of the trace. -/
theorem capacity_await_lock_discipline :
    (∀ i, i < capacityAwaitTrace.length →
      capacityAwaitTrace[i]? = some SentryLockEvent.awaitFuture →
      locksHeldAfter (capacityAwaitTrace.take i) = 0) ∧
    capacityAwaitTrace[1]? = some SentryLockEvent.obtainCapacityFuture ∧
    locksHeldAfter (capacityAwaitTrace.take 2) = 1 ∧
    capacityAwaitTrace[2]? = some SentryLockEvent.releaseRead ∧
    capacityAwaitTrace[3]? = some SentryLockEvent.awaitFuture := by
  decide

/-- Witness for C9 at the await point of the trace. -/
theorem capacity_await_lock_discipline_witness :
    locksHeldAfter (capacityAwaitTrace.take 3) = 0 :=
  capacity_await_lock_discipline.1 3 (by decide) (by decide)

/-- C8: with zero `Empty` slices, `execute` does not reach the scan — it
stays suspended while every wake re-reads a zero count (spurious wakes are
tolerated), any returned outcome other than the `watchClosed` failure implies
a strictly positive count was observed, and a closed producer makes the call
return the fatal `watchClosed` error with nothing touched. -/
theorem execute_suspend_until_work (gw : Nat → SendResult) (watchV : Nat)
    (watchEvs : List (Option Nat)) (capacity : Except Unit Unit)
    (slices : List HeaderSlice) (lastId clock : Nat)
    (h0 : pendingCount slices = 0) :
    (∀ res, execute gw watchV watchEvs capacity slices lastId clock = some res →
      res.result ≠ Except.error ExecError.watchClosed →
      ∃ w, 0 < w ∧ (watchV = w ∨ some w ∈ watchEvs)) ∧
    (watchV = 0 → (∀ e ∈ watchEvs, e = some 0) →
      execute gw watchV watchEvs capacity slices lastId clock = none) ∧
    (∀ zs rest, watchV = 0 → (∀ e ∈ zs, e = some 0) →
      watchEvs = zs ++ none :: rest →
      execute gw watchV watchEvs capacity slices lastId clock =
        some { slices := slices, lastRequestId := lastId, clock := clock,
               log := [], awaitedCapacity := false,
               result := Except.error ExecError.watchClosed }) := by
  refine ⟨?_, ?_, ?_⟩
  · intro res h hres
    unfold execute at h
    rw [if_pos h0] at h
    cases hw : watchWait watchV watchEvs with
    | none =>
      rw [hw] at h
      exact absurd h (by simp)
    | some r =>
      rw [hw] at h
      cases r with
      | error e =>
        simp only [Option.some.injEq] at h
        rw [← h] at hres
        exact absurd rfl hres
      | ok w =>
        exact ⟨w, watchWait_ok w watchEvs watchV hw⟩
  · intro hv hz
    subst hv
    unfold execute
    rw [if_pos h0, watchWait_zero watchEvs hz]
  · intro zs rest hv hz hevs
    subst hv
    subst hevs
    unfold execute
    rw [if_pos h0, watchWait_closed rest zs hz]

/-- Witness for C8 at a concrete input. -/
theorem execute_suspend_until_work_witness :
    ∃ w, 0 < w ∧ ((0 : Nat) = w ∨ some w ∈ [some 0, some 3]) :=
  (execute_suspend_until_work (fun _ => SendResult.ok) 0 [some 0, some 3]
      (Except.ok ()) [] 4 0 rfl).1
    { slices := [], lastRequestId := 4, clock := 0, log := [],
      awaitedCapacity := false, result := Except.ok () }
    (by decide) (by decide)

/-- C3: if an attempted send comes back as `ReactorStopped` or as any failure
other than queue-full, `execute` returns an error, that failing attempt is
the last one of the call (the scan aborts at that point), and the slice the
scan aborted on together with every slice after it is unchanged. -/
theorem execute_fatal_propagation (gw : Nat → SendResult) (watchV : Nat)
    (watchEvs : List (Option Nat)) (capacity : Except Unit Unit)
    (slices : List HeaderSlice) (lastId clock : Nat) (res : ExecResult)
    (m : SentMessage × SendResult)
    (h : execute gw watchV watchEvs capacity slices lastId clock = some res)
    (hm : m ∈ res.log)
    (hbad : m.2 = SendResult.stopped ∨ m.2 = SendResult.otherError) :
    (res.result = Except.error ExecError.sendStopped ∨
      res.result = Except.error ExecError.sendOther) ∧
    res.log.getLast? = some m ∧
    ∃ n, n < slices.length ∧ res.slices.drop n = slices.drop n ∧
      ∃ s, slices[n]? = some s ∧ s.status = HeaderSliceStatus.Empty := by
  rcases execute_cases _ _ _ _ _ _ _ _ h with rfl | ⟨_, hlog, _, _⟩
  swap
  · rw [hlog] at hm
    simp at hm
  obtain ⟨hsl, hlg, _⟩ := executeScan_scan gw capacity slices lastId clock
  obtain ⟨new, v1, v2, v3⟩ := requestPendingGo_verdict gw slices
    { lastRequestId := lastId, attempts := 0, clock := clock, log := [] }
  simp only [List.nil_append] at v1
  rw [requestPending_def] at hsl hlg
  have hmnew : m ∈ new := by
    rw [hlg, v1] at hm
    exact hm
  have hnenil : new ≠ [] := List.ne_nil_of_mem hmnew
  have hsplit : m ∈ new.dropLast ++ [new.getLast hnenil] := by
    rw [List.dropLast_append_getLast hnenil]
    exact hmnew
  have hlastm : new.getLast hnenil = m := by
    rcases List.mem_append.mp hsplit with hdrop | hone
    · have hok := v2 m hdrop
      rcases hbad with hb | hb <;> rw [hok] at hb <;> cases hb
    · exact (List.mem_singleton.mp hone).symm
  have hq : new.getLast? = some m := by
    rw [List.getLast?_eq_getLast new hnenil, hlastm]
  have hvlast : (new.map Prod.snd).getLast? = some m.2 := by
    rw [List.getLast?_map, hq]
    rfl
  have hscan : ∃ e, (requestPendingGo gw slices
      { lastRequestId := lastId, attempts := 0, clock := clock,
        log := [] }).2.2 = Except.error e ∧
      (executeScan gw capacity slices lastId clock).result =
        Except.error
          (match e with
            | ScanError.stopped => ExecError.sendStopped
            | ScanError.other => ExecError.sendOther) := by
    rcases hbad with hb | hb
    · refine ⟨ScanError.stopped, ?_, ?_⟩
      · rw [v3]
        unfold scanVerdict
        rw [hvlast, hb]
      · exact (executeScan_error gw capacity slices lastId clock _
          (by rw [requestPending_def, v3]; unfold scanVerdict;
              rw [hvlast, hb])).1
    · refine ⟨ScanError.other, ?_, ?_⟩
      · rw [v3]
        unfold scanVerdict
        rw [hvlast, hb]
      · exact (executeScan_error gw capacity slices lastId clock _
          (by rw [requestPending_def, v3]; unfold scanVerdict;
              rw [hvlast, hb])).1
  obtain ⟨e, he, hres⟩ := hscan
  refine ⟨?_, ?_, ?_⟩
  · cases e
    · exact Or.inl hres
    · exact Or.inr hres
  · rw [hlg, v1]
    exact hq
  · obtain ⟨n, hn, hdrop, s, hget, hstat⟩ :=
      requestPendingGo_error_suffix gw slices _ e he
    refine ⟨n, hn, ?_, s, hget, hstat⟩
    rw [hsl]
    exact hdrop

/-- One `Empty` fixture slice at block 1. -/
def sliceEmpty1 : HeaderSlice :=
  { start_block_num := 1, status := HeaderSliceStatus.Empty,
    request_time := none }

/-- The message the stage builds for `sliceEmpty1` with request id 0, and the
gateway's `ReactorStopped` reply to it. -/
def stoppedEntry : SentMessage × SendResult :=
  ({ message :=
      { request_id := 0,
        params := { start_block := 1, limit := 193, skip := 0, reverse := 0 } },
     peer_filter := PeerFilter.Random 1 },
   SendResult.stopped)

/-- The outcome of `execute` on `sliceEmpty1` under an always-stopped
gateway. -/
def execStopped : ExecResult :=
  { slices := [sliceEmpty1], lastRequestId := 1, clock := 0,
    log := [stoppedEntry], awaitedCapacity := false,
    result := Except.error ExecError.sendStopped }

/-- Witness for C3 at a concrete input. -/
theorem execute_fatal_propagation_witness :
    (execStopped.result = Except.error ExecError.sendStopped ∨
      execStopped.result = Except.error ExecError.sendOther) ∧
    execStopped.log.getLast? = some stoppedEntry ∧
    ∃ n, n < [sliceEmpty1].length ∧
      execStopped.slices.drop n = [sliceEmpty1].drop n ∧
      ∃ s, [sliceEmpty1][n]? = some s ∧
        s.status = HeaderSliceStatus.Empty :=
  execute_fatal_propagation (fun _ => SendResult.stopped) 0 [] (Except.ok ())
    [sliceEmpty1] 0 0 execStopped stoppedEntry (by decide) (by decide)
    (Or.inl rfl)

/-- C1: with five `Empty` slices and a gateway that accepts the first two
sends and reports a full queue on the third, `execute` stops the scan at that
point (exactly three attempts are made, the last being the queue-full one —
the scan is not retried within the call), leaves exactly 2 slices `Waiting`
and the remaining 3 `Empty` with the tail of the store untouched, returns no
error, and returns only after awaiting the (resolved) capacity future. -/
theorem execute_backpressure (gw : Nat → SendResult) (watchV : Nat)
    (watchEvs : List (Option Nat)) (slices : List HeaderSlice)
    (lastId clock : Nat)
    (hlen : slices.length = 5)
    (hall : ∀ s ∈ slices, s.status = HeaderSliceStatus.Empty)
    (hgw0 : gw 0 = SendResult.ok) (hgw1 : gw 1 = SendResult.ok)
    (hgw2 : gw 2 = SendResult.queueFull) :
    ∃ res, execute gw watchV watchEvs (Except.ok ()) slices lastId clock =
        some res ∧
      res.result = Except.ok () ∧
      countSlicesInStatus res.slices HeaderSliceStatus.Waiting = 2 ∧
      countSlicesInStatus res.slices HeaderSliceStatus.Empty = 3 ∧
      res.slices.drop 2 = slices.drop 2 ∧
      res.awaitedCapacity = true ∧
      res.log.map Prod.snd =
        [SendResult.ok, SendResult.ok, SendResult.queueFull] := by
  obtain ⟨a, b, c, d, e, rfl⟩ : ∃ a b c d e, slices = [a, b, c, d, e] := by
    rcases slices with _ | ⟨a, _ | ⟨b, _ | ⟨c, _ | ⟨d, _ | ⟨e, _ | ⟨f, t⟩⟩⟩⟩⟩⟩
    · simp at hlen
    · simp at hlen
    · simp at hlen
    · simp at hlen
    · simp at hlen
    · exact ⟨a, b, c, d, e, rfl⟩
    · simp at hlen
  have ha := hall a (by simp)
  have hb := hall b (by simp)
  have hc := hall c (by simp)
  have hd := hall d (by simp)
  have he := hall e (by simp)
  refine ⟨executeScan gw (Except.ok ()) [a, b, c, d, e] lastId clock,
    ?_, ?_, ?_, ?_, ?_, ?_, ?_⟩
  · unfold execute
    rw [if_neg (by simp [pendingCount_cons, ha])]
  all_goals
    simp [executeScan, requestPending_def, requestPendingGo, hgw0, hgw1, hgw2,
      ha, hb, hc, hd, he, pendingCount_cons, countSlicesInStatus,
      List.filter_cons]

/-- The backpressure gateway: accepts the first two sends, then reports a
full queue. -/
def gwBackpressure : Nat → SendResult :=
  fun n => if n < 2 then SendResult.ok else SendResult.queueFull

/-- Five `Empty` fixture slices. -/
def fiveSlices : List HeaderSlice :=
  [{ start_block_num := 10, status := HeaderSliceStatus.Empty,
     request_time := none },
   { start_block_num := 20, status := HeaderSliceStatus.Empty,
     request_time := none },
   { start_block_num := 30, status := HeaderSliceStatus.Empty,
     request_time := none },
   { start_block_num := 40, status := HeaderSliceStatus.Empty,
     request_time := none },
   { start_block_num := 50, status := HeaderSliceStatus.Empty,
     request_time := none }]

/-- Witness for C1 at a concrete input. -/
theorem execute_backpressure_witness :
    ∃ res, execute gwBackpressure 0 [] (Except.ok ()) fiveSlices 0 0 =
        some res ∧
      res.result = Except.ok () ∧
      countSlicesInStatus res.slices HeaderSliceStatus.Waiting = 2 ∧
      countSlicesInStatus res.slices HeaderSliceStatus.Empty = 3 ∧
      res.slices.drop 2 = fiveSlices.drop 2 ∧
      res.awaitedCapacity = true ∧
      res.log.map Prod.snd =
        [SendResult.ok, SendResult.ok, SendResult.queueFull] :=
  execute_backpressure gwBackpressure 0 [] fiveSlices 0 0 (by decide)
    (by decide) rfl rfl rfl

end FetchRequest
